import Mathlib

/-!
Verification of the streaming compilation client in
src/frontend/js/compiler.js.

The embedding models the network as an explicit outcome value: a fetch
either rejects with a transport error message, or yields a response with
a numeric status, the optional message field extracted from its JSON
body, the decoded text chunks delivered by successive reads, and an
optional transport failure terminating the reads.  Chunks are sequences
of characters: the platform TextDecoder invoked with the streaming flag
reassembles bytes of one character split across reads, so text chunks
are the faithful granularity.  Each caller-supplied callback is optional
and, when invoked, either returns normally or throws an exception
carrying a message; a run records the sequence of callback invocations,
the diagnostic console logs, and the exception (if any) escaping the
async function.
-/

namespace Facto

/-- One invocation of a caller-supplied callback, tagged by which
callback fired and with which content argument. -/
inductive Call where
  | log (content : String)
  | blueprint (content : String)
  | json (content : String)
  | error (content : String)
  | status (content : String)
  | queue (content : String)
  | complete
deriving DecidableEq, Repr

/-- The callback set passed to compileWithStreaming.  Each callback is
optional (absent means the event is ignored).  A present callback maps
its argument to none (normal return) or some m (it throws an exception
with message m). -/
structure Callbacks where
  onLog : Option (String → Option String)
  onBlueprint : Option (String → Option String)
  onJson : Option (String → Option String)
  onError : Option (String → Option String)
  onStatus : Option (String → Option String)
  onQueue : Option (String → Option String)
  onComplete : Option (Unit → Option String)

/-- The parsed JSON envelope of one event line: the type field (none if
the parsed value has no string type field) and the content field. -/
structure Envelope where
  type : Option String
  content : String
deriving DecidableEq

/-- Mutable state of one streaming invocation, without the line buffer:
the single-fire completion latch (completeCalled in the source), the
trace of callback invocations so far, and the console diagnostics. -/
structure LoopState where
  completeCalled : Bool
  trace : List Call
  diags : List String

/-- The callComplete closure: a single-fire latch that invokes
onComplete at most once.  Returns the new state and the exception
thrown by onComplete, if any. -/
def callComplete (cbs : Callbacks) (st : LoopState) : LoopState × Option String :=
  if st.completeCalled then (st, none)
  else
    match cbs.onComplete with
    | none => ({ st with completeCalled := true }, none)
    | some f => ({ st with completeCalled := true, trace := st.trace ++ [Call.complete] }, f ())

/-- Optional-chaining invocation of one content callback, recording the
invocation in the trace and returning the exception it throws, if any. -/
def invoke1 (cb : Option (String → Option String)) (mk : String → Call) (arg : String)
    (st : LoopState) : LoopState × Option String :=
  match cb with
  | none => (st, none)
  | some f => ({ st with trace := st.trace ++ [mk arg] }, f arg)

/-- The switch on event.type from the source: routes a parsed envelope
to the corresponding callback; unknown types fall through to the
default and do nothing. -/
def dispatch (cbs : Callbacks) (st : LoopState) (ev : Envelope) : LoopState × Option String :=
  match ev.type with
  | none => (st, none)
  | some t =>
    if t = "log" then invoke1 cbs.onLog Call.log ev.content st
    else if t = "blueprint" then invoke1 cbs.onBlueprint Call.blueprint ev.content st
    else if t = "json" then invoke1 cbs.onJson Call.json ev.content st
    else if t = "error" then invoke1 cbs.onError Call.error ev.content st
    else if t = "status" then invoke1 cbs.onStatus Call.status ev.content st
    else if t = "queue" then invoke1 cbs.onQueue Call.queue ev.content st
    else if t = "end" then callComplete cbs st
    else (st, none)

/-- Diagnostic recorded when JSON.parse fails on a data line. -/
def parseFailDiag : String := "Failed to parse SSE data"

/-- Diagnostic recorded when the per-line catch receives an exception
thrown by a callback. -/
def throwDiag (m : String) : String := "Failed to parse SSE data: " ++ m

/-- Processing of one complete line from the buffer: only lines with
the data prefix are events; the remainder is parsed (jp models the
platform JSON.parse, none meaning a parse exception) and dispatched;
the per-line try/catch converts any exception into a diagnostic. -/
def lineStep (jp : List Char → Option Envelope) (cbs : Callbacks)
    (st : LoopState) (line : List Char) : LoopState :=
  if "data: ".toList.isPrefixOf line then
    match jp (line.drop 6) with
    | none => { st with diags := st.diags ++ [parseFailDiag] }
    | some ev =>
      match dispatch cbs st ev with
      | (st2, none) => st2
      | (st2, some m) => { st2 with diags := st2.diags ++ [throwDiag m] }
  else st

/-- The line buffer together with the loop state. -/
structure BufState where
  buf : List Char
  st : LoopState

/-- One iteration of the read loop with a newly decoded chunk: append
to the buffer, split on newlines, keep the trailing incomplete line in
the buffer, and process every complete line in order. -/
def processChunk (jp : List Char → Option Envelope) (cbs : Callbacks)
    (b : BufState) (chunk : List Char) : BufState :=
  let lines := (b.buf ++ chunk).splitOnP (· == '\n')
  { buf := lines.getLastD [],
    st := lines.dropLast.foldl (lineStep jp cbs) b.st }

/-- Character-at-a-time reference machine used to prove that chunk
boundaries are invisible: a newline flushes the buffered line through
lineStep, any other character is appended to the buffer. -/
def charStep (jp : List Char → Option Envelope) (cbs : Callbacks)
    (b : BufState) (c : Char) : BufState :=
  if c = '\n' then { buf := [], st := lineStep jp cbs b.st b.buf }
  else { b with buf := b.buf ++ [c] }

/-- The options object accepted by both compile entry points; every
field may be absent (undefined in the source). -/
structure Options where
  powerPoles : Option String
  blueprintName : Option String
  noOptimize : Option Bool
  jsonOutput : Option Bool
  logLevel : Option String

/-- JS coalescing v || null for string options: undefined and the empty
string are falsy and collapse to null. -/
def jsOrNull (v : Option String) : Option String :=
  match v with
  | some s => if s = "" then none else some s
  | none => none

/-- JS coalescing v || false for boolean options. -/
def jsOrFalse (v : Option Bool) : Bool :=
  match v with
  | some b => b
  | none => false

/-- JS coalescing v || d for string options with a default. -/
def jsOrDefault (v : Option String) (d : String) : String :=
  match v with
  | some s => if s = "" then d else s
  | none => d

/-- The serialized request body sent to the backend. -/
structure RequestBody where
  source : String
  power_poles : Option String
  blueprint_name : Option String
  no_optimize : Bool
  json_output : Bool
  log_level : String
deriving DecidableEq

/-- The request body built by compileWithStreaming; json_output is
always false on the streaming path. -/
def streamingRequestBody (source : String) (options : Options) : RequestBody :=
  { source := source
    power_poles := jsOrNull options.powerPoles
    blueprint_name := jsOrNull options.blueprintName
    no_optimize := jsOrFalse options.noOptimize
    json_output := false
    log_level := jsOrDefault options.logLevel "info" }

/-- The request body built by compileSync; json_output honors the
caller-supplied option. -/
def syncRequestBody (source : String) (options : Options) : RequestBody :=
  { source := source
    power_poles := jsOrNull options.powerPoles
    blueprint_name := jsOrNull options.blueprintName
    no_optimize := jsOrFalse options.noOptimize
    json_output := jsOrFalse options.jsonOutput
    log_level := jsOrDefault options.logLevel "info" }

/-- Response.ok of the fetch API: status in the 2xx range. -/
def respOk (status : Nat) : Bool := 200 ≤ status && status < 300

/-- The error message thrown for a non-ok response: the message field
of the JSON body when present and truthy, else the generic message with
the status code. -/
def errorMessageOf (status : Nat) (jsonMessage : Option String) : String :=
  match jsonMessage with
  | some m => if m = "" then "Server error: " ++ toString status else m
  | none => "Server error: " ++ toString status

/-- A streaming HTTP response: status, the message field extracted from
the body when parsed as JSON (used only on the failure path), the
decoded chunks produced by successive reads, and an optional transport
failure that rejects the read following the last chunk (none means the
stream ends cleanly with done). -/
structure HttpResp where
  status : Nat
  jsonMessage : Option String
  chunks : List (List Char)
  readFailure : Option String

/-- Outcome of the initial fetch: transport rejection or a response. -/
inductive FetchOutcome where
  | netFail (msg : String)
  | resp (r : HttpResp)

/-- The outer catch block of compileWithStreaming: report the failure
through onError, then trigger completion; an exception thrown by either
callback escapes the async function. -/
def handleCatch (cbs : Callbacks) (st : LoopState) (msg : String) : LoopState × Option String :=
  match cbs.onError with
  | none => callComplete cbs st
  | some f =>
    let st1 : LoopState := { st with trace := st.trace ++ [Call.error msg] }
    match f msg with
    | some m => (st1, some m)
    | none => callComplete cbs st1

/-- State at entry of a compile invocation. -/
def initState : LoopState := ⟨false, [], []⟩

/-- Observable result of one compileWithStreaming invocation: the body
sent, the callback trace, the diagnostics, and the exception escaping
the async function, if any. -/
structure StreamRun where
  sent : RequestBody
  trace : List Call
  diags : List String
  thrown : Option String

/-- Shallow embedding of compileWithStreaming: build the request body,
then either hit the outer catch (transport failure or thrown non-ok
status error), or consume the stream chunk by chunk, triggering
completion on done and routing a mid-stream read failure through the
outer catch. -/
def compileWithStreaming (jp : List Char → Option Envelope) (cbs : Callbacks)
    (source : String) (options : Options) (outcome : FetchOutcome) : StreamRun :=
  let body := streamingRequestBody source options
  match outcome with
  | .netFail msg =>
    let r := handleCatch cbs initState msg
    ⟨body, r.1.trace, r.1.diags, r.2⟩
  | .resp resp =>
    if respOk resp.status then
      let endSt := resp.chunks.foldl (processChunk jp cbs) ⟨[], initState⟩
      match resp.readFailure with
      | some msg =>
        let r := handleCatch cbs endSt.st msg
        ⟨body, r.1.trace, r.1.diags, r.2⟩
      | none =>
        match callComplete cbs endSt.st with
        | (st, none) => ⟨body, st.trace, st.diags, none⟩
        | (st, some m) =>
          let r := handleCatch cbs st m
          ⟨body, r.1.trace, r.1.diags, r.2⟩
    else
      let r := handleCatch cbs initState (errorMessageOf resp.status resp.jsonMessage)
      ⟨body, r.1.trace, r.1.diags, r.2⟩

/-- Outcome of the single fetch performed by compileSync: transport
rejection, or a response with its status, the message field of its JSON
body (failure path), and its parsed JSON result (success path, none
meaning the body is not valid JSON). -/
inductive SyncOutcome where
  | netFail (msg : String)
  | resp (status : Nat) (jsonMessage : Option String) (bodyJson : Option String)

/-- Message of the exception rejecting response.json() on an invalid
body. -/
def jsonBodyInvalidMsg : String := "Unexpected end of JSON input"

/-- Observable result of one compileSync invocation. -/
structure SyncRun where
  sent : RequestBody
  result : Except String String

/-- Shallow embedding of compileSync: single request, whole-body
response; non-ok status throws the extracted or generic error. -/
def compileSync (source : String) (options : Options) (outcome : SyncOutcome) : SyncRun :=
  let body := syncRequestBody source options
  match outcome with
  | .netFail msg => ⟨body, .error msg⟩
  | .resp status jsonMessage bodyJson =>
    if respOk status then
      match bodyJson with
      | some v => ⟨body, .ok v⟩
      | none => ⟨body, .error jsonBodyInvalidMsg⟩
    else ⟨body, .error (errorMessageOf status jsonMessage)⟩

/-- Outcome of a probe fetch (health or connect). -/
inductive ProbeOutcome where
  | netFail (msg : String)
  | resp (status : Nat)

/-- Shallow embedding of checkHealth: the try/catch swallows every
transport failure into false; otherwise the result is response.ok. -/
def checkHealth (outcome : ProbeOutcome) : Bool :=
  match outcome with
  | .netFail _ => false
  | .resp status => respOk status

/-- Shallow embedding of connect, identical failure-swallowing
semantics as checkHealth. -/
def connect (outcome : ProbeOutcome) : Bool :=
  match outcome with
  | .netFail _ => false
  | .resp status => respOk status

/-- A present string callback never throws. -/
def benignS (cb : Option (String → Option String)) : Prop :=
  ∀ f, cb = some f → ∀ s, f s = none

/-- A present completion callback never throws. -/
def benignU (cb : Option (Unit → Option String)) : Prop :=
  ∀ f, cb = some f → f () = none

/-- No callback of the set throws. -/
def benignCbs (cbs : Callbacks) : Prop :=
  benignS cbs.onLog ∧ benignS cbs.onBlueprint ∧ benignS cbs.onJson ∧
  benignS cbs.onError ∧ benignS cbs.onStatus ∧ benignS cbs.onQueue ∧
  benignU cbs.onComplete

/-- Number of completion firings recorded in a trace. -/
def countC (tr : List Call) : Nat := tr.count Call.complete

/-- The latch invariant: the trace holds exactly one completion call
when the latch has fired and none before. -/
def latchInv (st : LoopState) : Prop :=
  countC st.trace = if st.completeCalled then 1 else 0

/-- Whether a complete line is an event line whose envelope has type
end. -/
def isEndLine (jp : List Char → Option Envelope) (line : List Char) : Bool :=
  "data: ".toList.isPrefixOf line &&
    match jp (line.drop 6) with
    | some ev => ev.type == some "end"
    | none => false

/-! Component lemmas. -/

lemma countC_append (tr tr2 : List Call) : countC (tr ++ tr2) = countC tr + countC tr2 := by
  simp [countC, List.count_append]

lemma countC_single_ne (c : Call) (h : c ≠ Call.complete) : countC [c] = 0 := by
  simp [countC, List.count_cons, List.count_nil, h]

lemma countC_single_complete : countC [Call.complete] = 1 := by
  simp [countC]

lemma callComplete_flag (cbs : Callbacks) (st : LoopState) :
    ((callComplete cbs st).1).completeCalled = true := by
  by_cases h : st.completeCalled
  · simp [callComplete, h]
  · cases hc : cbs.onComplete <;> simp [callComplete, h, hc]

lemma callComplete_of_called (cbs : Callbacks) (st : LoopState)
    (h : st.completeCalled = true) : callComplete cbs st = (st, none) := by
  simp [callComplete, h]

lemma callComplete_latch (cbs : Callbacks) (st : LoopState)
    (hC : cbs.onComplete.isSome = true) (h : latchInv st) :
    latchInv (callComplete cbs st).1 := by
  by_cases hcc : st.completeCalled
  · simpa [callComplete, hcc] using h
  · obtain ⟨g, hg⟩ := Option.isSome_iff_exists.mp hC
    simp only [latchInv, hcc, if_neg] at h
    simp [callComplete, hcc, hg, latchInv, countC_append, h, countC_single_complete]

lemma callComplete_snd_benign (cbs : Callbacks) (st : LoopState)
    (hb : benignU cbs.onComplete) : (callComplete cbs st).2 = none := by
  by_cases hcc : st.completeCalled
  · simp [callComplete, hcc]
  · cases hc : cbs.onComplete with
    | none => simp [callComplete, hcc, hc]
    | some f => simp [callComplete, hcc, hc, hb f hc]

lemma invoke1_flag (cb : Option (String → Option String)) (mk : String → Call)
    (arg : String) (st : LoopState) :
    ((invoke1 cb mk arg st).1).completeCalled = st.completeCalled := by
  cases cb <;> simp [invoke1]

lemma invoke1_latch (cb : Option (String → Option String)) (mk : String → Call)
    (arg : String) (st : LoopState) (hmk : ∀ a, mk a ≠ Call.complete)
    (h : latchInv st) : latchInv (invoke1 cb mk arg st).1 := by
  cases cb with
  | none => simpa [invoke1] using h
  | some f =>
    simpa [invoke1, latchInv, countC_append, countC_single_ne _ (hmk arg),
      invoke1_flag] using h

lemma dispatch_latch (cbs : Callbacks) (st : LoopState) (ev : Envelope)
    (hC : cbs.onComplete.isSome = true) (h : latchInv st) :
    latchInv (dispatch cbs st ev).1 := by
  cases ht : ev.type with
  | none => simpa [dispatch, ht] using h
  | some t =>
    simp only [dispatch, ht]
    split_ifs
    all_goals first
      | exact invoke1_latch _ _ _ _ (by intro a; simp) h
      | exact callComplete_latch cbs st hC h
      | exact h

lemma dispatch_flag (cbs : Callbacks) (st : LoopState) (ev : Envelope)
    (hend : ev.type ≠ some "end") :
    ((dispatch cbs st ev).1).completeCalled = st.completeCalled := by
  cases ht : ev.type with
  | none => simp [dispatch, ht]
  | some t =>
    have htne : t ≠ "end" := by rintro rfl; exact hend ht
    simp only [dispatch, ht]
    split_ifs
    all_goals first
      | exact invoke1_flag _ _ _ _
      | (exact absurd (by assumption) htne)
      | rfl

lemma lineStep_latch (jp : List Char → Option Envelope) (cbs : Callbacks)
    (st : LoopState) (line : List Char)
    (hC : cbs.onComplete.isSome = true) (h : latchInv st) :
    latchInv (lineStep jp cbs st line) := by
  unfold lineStep
  split
  · split
    · simpa [latchInv] using h
    · rename_i ev hjp
      split
      · rename_i st2 hdp
        have hd := dispatch_latch cbs st ev hC h
        rw [hdp] at hd
        exact hd
      · rename_i st2 m hdp
        have hd := dispatch_latch cbs st ev hC h
        rw [hdp] at hd
        simpa [latchInv] using hd
  · exact h

lemma foldl_lineStep_latch (jp : List Char → Option Envelope) (cbs : Callbacks)
    (lines : List (List Char)) (hC : cbs.onComplete.isSome = true) :
    ∀ st : LoopState, latchInv st → latchInv (lines.foldl (lineStep jp cbs) st) := by
  induction lines with
  | nil => intro st h; exact h
  | cons l ls ih =>
    intro st h
    exact ih _ (lineStep_latch jp cbs st l hC h)

lemma processChunk_latch (jp : List Char → Option Envelope) (cbs : Callbacks)
    (b : BufState) (chunk : List Char) (hC : cbs.onComplete.isSome = true)
    (h : latchInv b.st) : latchInv (processChunk jp cbs b chunk).st := by
  exact foldl_lineStep_latch jp cbs _ hC _ h

lemma foldl_processChunk_latch (jp : List Char → Option Envelope) (cbs : Callbacks)
    (chunks : List (List Char)) (hC : cbs.onComplete.isSome = true) :
    ∀ b : BufState, latchInv b.st →
      latchInv ((chunks.foldl (processChunk jp cbs) b).st) := by
  induction chunks with
  | nil => intro b h; exact h
  | cons c cs ih =>
    intro b h
    exact ih _ (processChunk_latch jp cbs b c hC h)

lemma handleCatch_latch (cbs : Callbacks) (st : LoopState) (msg : String)
    (hC : cbs.onComplete.isSome = true) (hE : benignS cbs.onError)
    (h : latchInv st) :
    latchInv (handleCatch cbs st msg).1 ∧
      ((handleCatch cbs st msg).1).completeCalled = true := by
  cases he : cbs.onError with
  | none =>
    simp only [handleCatch, he]
    exact ⟨callComplete_latch cbs st hC h, callComplete_flag cbs st⟩
  | some f =>
    have hfn : f msg = none := hE f he msg
    have h1 : latchInv { st with trace := st.trace ++ [Call.error msg] } := by
      simpa [latchInv, countC_append,
        countC_single_ne (Call.error msg) (by simp)] using h
    simp only [handleCatch, he, hfn]
    exact ⟨callComplete_latch cbs _ hC h1, callComplete_flag cbs _⟩

lemma latchInv_initState : latchInv initState := by
  simp [latchInv, initState, countC]

/-! Chunk-boundary analysis: the buffered line splitting of processChunk
agrees with the character-at-a-time machine, so chunk boundaries are
invisible to the dispatched trace. -/

lemma splitOnP_newline_eq_single (l : List Char) (h : ∀ c ∈ l, c ≠ '\n') :
    l.splitOnP (· == '\n') = [l] :=
  List.splitOnP_eq_single _ _ (by intro x hx; simpa using h x hx)

lemma processChunk_eq_foldl (jp : List Char → Option Envelope) (cbs : Callbacks)
    (chunk : List Char) :
    ∀ b : BufState, (∀ c ∈ b.buf, c ≠ '\n') →
      processChunk jp cbs b chunk = chunk.foldl (charStep jp cbs) b := by
  induction chunk with
  | nil =>
    intro b h
    rcases b with ⟨buf, st⟩
    simp [processChunk, splitOnP_newline_eq_single buf h]
  | cons c cs ih =>
    intro b h
    rcases b with ⟨buf, st⟩
    replace h : ∀ c ∈ buf, c ≠ '\n' := h
    by_cases hc : c = '\n'
    · subst hc
      have hsplit : (buf ++ '\n' :: cs).splitOnP (· == '\n')
          = buf :: cs.splitOnP (· == '\n') :=
        List.splitOnP_first _ _ (by intro x hx; simpa using h x hx) '\n' (by simp) cs
      have hL : cs.splitOnP (· == '\n') ≠ [] := List.splitOnP_ne_nil _ cs
      rcases hLL : cs.splitOnP (· == '\n') with _ | ⟨x, xs⟩
      · exact absurd hLL hL
      · rw [List.foldl_cons]
        have hstep : charStep jp cbs ⟨buf, st⟩ '\n'
            = ⟨[], lineStep jp cbs st buf⟩ := by simp [charStep]
        rw [hstep, ← ih ⟨[], lineStep jp cbs st buf⟩ (by simp)]
        simp [processChunk, hsplit, hLL, List.getLastD_cons]
    · have hinv : ∀ x ∈ buf ++ [c], x ≠ '\n' := by
        intro x hx
        rcases List.mem_append.mp hx with hx | hx
        · exact h x hx
        · rw [List.mem_singleton] at hx; subst hx; exact hc
      have hl : buf ++ c :: cs = (buf ++ [c]) ++ cs := by simp
      calc processChunk jp cbs ⟨buf, st⟩ (c :: cs)
          = processChunk jp cbs ⟨buf ++ [c], st⟩ cs := by
            simp only [processChunk]
            rw [hl]
        _ = cs.foldl (charStep jp cbs) ⟨buf ++ [c], st⟩ := ih _ hinv
        _ = (c :: cs).foldl (charStep jp cbs) ⟨buf, st⟩ := by
            simp [List.foldl_cons, charStep, hc]

lemma foldl_charStep_buf (jp : List Char → Option Envelope) (cbs : Callbacks)
    (cs : List Char) :
    ∀ b : BufState, (∀ c ∈ b.buf, c ≠ '\n') →
      ∀ c ∈ (cs.foldl (charStep jp cbs) b).buf, c ≠ '\n' := by
  induction cs with
  | nil => intro b h; exact h
  | cons c cs ih =>
    intro b h
    simp only [List.foldl_cons]
    by_cases hc : c = '\n'
    · subst hc
      refine ih _ ?_
      simp [charStep]
    · refine ih _ ?_
      intro x hx
      simp [charStep, hc] at hx
      rcases hx with hx | hx
      · exact h x hx
      · subst hx; exact hc

lemma foldl_processChunk_eq_flatten (jp : List Char → Option Envelope) (cbs : Callbacks)
    (chunks : List (List Char)) :
    ∀ b : BufState, (∀ c ∈ b.buf, c ≠ '\n') →
      chunks.foldl (processChunk jp cbs) b
        = (chunks.flatten).foldl (charStep jp cbs) b := by
  induction chunks with
  | nil => intro b _; simp
  | cons ch chs ih =>
    intro b h
    simp only [List.foldl_cons, List.flatten_cons, List.foldl_append]
    rw [processChunk_eq_foldl jp cbs ch b h]
    exact ih _ (foldl_charStep_buf jp cbs ch b h)

lemma foldl_charStep_st_no_newline (jp : List Char → Option Envelope) (cbs : Callbacks)
    (frag : List Char) :
    ∀ b : BufState, (∀ c ∈ frag, c ≠ '\n') →
      (frag.foldl (charStep jp cbs) b).st = b.st := by
  induction frag with
  | nil => intro b _; rfl
  | cons c cs ih =>
    intro b h
    have hc : c ≠ '\n' := h c (by simp)
    simp only [List.foldl_cons]
    rw [ih _ (fun x hx => h x (by simp [hx]))]
    simp [charStep, hc]

/-! Equation lemmas for the run function by outcome shape. -/

lemma run_netFail (jp : List Char → Option Envelope) (cbs : Callbacks)
    (source : String) (options : Options) (msg : String) :
    compileWithStreaming jp cbs source options (.netFail msg)
      = ⟨streamingRequestBody source options,
         (handleCatch cbs initState msg).1.trace,
         (handleCatch cbs initState msg).1.diags,
         (handleCatch cbs initState msg).2⟩ := rfl

lemma run_resp_not_ok (jp : List Char → Option Envelope) (cbs : Callbacks)
    (source : String) (options : Options) (r : HttpResp)
    (hok : respOk r.status = false) :
    compileWithStreaming jp cbs source options (.resp r)
      = ⟨streamingRequestBody source options,
         (handleCatch cbs initState (errorMessageOf r.status r.jsonMessage)).1.trace,
         (handleCatch cbs initState (errorMessageOf r.status r.jsonMessage)).1.diags,
         (handleCatch cbs initState (errorMessageOf r.status r.jsonMessage)).2⟩ := by
  simp [compileWithStreaming, hok]

lemma run_resp_ok_done (jp : List Char → Option Envelope) (cbs : Callbacks)
    (source : String) (options : Options) (r : HttpResp)
    (hok : respOk r.status = true) (hrf : r.readFailure = none) :
    compileWithStreaming jp cbs source options (.resp r)
      = match callComplete cbs ((r.chunks.foldl (processChunk jp cbs) ⟨[], initState⟩).st) with
        | (st, none) => ⟨streamingRequestBody source options, st.trace, st.diags, none⟩
        | (st, some m) =>
          ⟨streamingRequestBody source options, (handleCatch cbs st m).1.trace,
           (handleCatch cbs st m).1.diags, (handleCatch cbs st m).2⟩ := by
  simp [compileWithStreaming, hok, hrf]

lemma run_resp_ok_fail (jp : List Char → Option Envelope) (cbs : Callbacks)
    (source : String) (options : Options) (r : HttpResp) (msg : String)
    (hok : respOk r.status = true) (hrf : r.readFailure = some msg) :
    compileWithStreaming jp cbs source options (.resp r)
      = ⟨streamingRequestBody source options,
         (handleCatch cbs ((r.chunks.foldl (processChunk jp cbs) ⟨[], initState⟩).st) msg).1.trace,
         (handleCatch cbs ((r.chunks.foldl (processChunk jp cbs) ⟨[], initState⟩).st) msg).1.diags,
         (handleCatch cbs ((r.chunks.foldl (processChunk jp cbs) ⟨[], initState⟩).st) msg).2⟩ := by
  simp [compileWithStreaming, hok, hrf]

lemma countC_of_latch_called (st : LoopState) (h : latchInv st)
    (hflag : st.completeCalled = true) : countC st.trace = 1 := by
  simpa [latchInv, hflag] using h

/-! Concrete fixtures used by witness theorems. -/

/-- A concrete JSON.parse oracle for tests: recognizes three envelope
payloads and rejects everything else. -/
def jpFix : List Char → Option Envelope := fun l =>
  if l = "evtlog".toList then some ⟨some "log", "parsing"⟩
  else if l = "evtbp".toList then some ⟨some "blueprint", "0eNG"⟩
  else if l = "evtend".toList then some ⟨some "end", ""⟩
  else none

/-- A callback set with every callback supplied and none throwing. -/
def cbsAll : Callbacks :=
  { onLog := some fun _ => none
    onBlueprint := some fun _ => none
    onJson := some fun _ => none
    onError := some fun _ => none
    onStatus := some fun _ => none
    onQueue := some fun _ => none
    onComplete := some fun _ => none }

/-- All options absent. -/
def optsNone : Options := ⟨none, none, none, none, none⟩

lemma benignS_const_none : benignS (some (fun _ : String => none)) := by
  intro f hf s
  injection hf with h
  cases h
  rfl

lemma benignU_const_none : benignU (some (fun _ : Unit => none)) := by
  intro f hf
  injection hf with h
  cases h
  rfl

lemma cbsAll_benign : benignCbs cbsAll :=
  ⟨benignS_const_none, benignS_const_none, benignS_const_none, benignS_const_none,
   benignS_const_none, benignS_const_none, benignU_const_none⟩

/-! The claims. -/

/-- Claim C1: for every invocation of compileWithStreaming, with any
request and any callback set that supplies onComplete (and whose
onError, when supplied, returns normally when invoked), and for every
stream outcome — an End envelope seen, a clean close without End, an
empty body, or a transport failure at any point, in any combination —
the single-fire completion latch runs and invokes onComplete exactly
once. -/
theorem c1_onComplete_fires_exactly_once (jp : List Char → Option Envelope)
    (cbs : Callbacks) (source : String) (options : Options) (outcome : FetchOutcome)
    (hC : cbs.onComplete.isSome = true) (hE : benignS cbs.onError) :
    countC (compileWithStreaming jp cbs source options outcome).trace = 1 := by
  cases outcome with
  | netFail msg =>
    rw [run_netFail]
    have h := handleCatch_latch cbs initState msg hC hE latchInv_initState
    exact countC_of_latch_called _ h.1 h.2
  | resp r =>
    by_cases hok : respOk r.status = true
    · have hlatch : latchInv ((r.chunks.foldl (processChunk jp cbs) ⟨[], initState⟩).st) :=
        foldl_processChunk_latch jp cbs r.chunks hC ⟨[], initState⟩ latchInv_initState
      cases hrf : r.readFailure with
      | some msg =>
        rw [run_resp_ok_fail jp cbs source options r msg hok hrf]
        have h := handleCatch_latch cbs _ msg hC hE hlatch
        exact countC_of_latch_called _ h.1 h.2
      | none =>
        have hmatch := run_resp_ok_done jp cbs source options r hok hrf
        rcases hcc : callComplete cbs ((r.chunks.foldl (processChunk jp cbs) ⟨[], initState⟩).st)
          with ⟨st, e⟩
        have hflag : st.completeCalled = true := by
          have h := callComplete_flag cbs
            ((r.chunks.foldl (processChunk jp cbs) ⟨[], initState⟩).st)
          rw [hcc] at h; exact h
        have hst : latchInv st := by
          have h := callComplete_latch cbs _ hC hlatch
          rw [hcc] at h; exact h
        rw [hcc] at hmatch
        cases e with
        | none =>
          rw [hmatch]
          exact countC_of_latch_called st hst hflag
        | some m =>
          rw [hmatch]
          have h := handleCatch_latch cbs st m hC hE hst
          exact countC_of_latch_called _ h.1 h.2
    · have hok2 : respOk r.status = false := by simpa using hok
      rw [run_resp_not_ok jp cbs source options r hok2]
      have h := handleCatch_latch cbs initState
        (errorMessageOf r.status r.jsonMessage) hC hE latchInv_initState
      exact countC_of_latch_called _ h.1 h.2

/-- Witness for C1 at a concrete transport failure. -/
theorem c1_onComplete_fires_exactly_once_witness :
    countC (compileWithStreaming jpFix cbsAll "Signal a = 1;" optsNone
      (.netFail "Failed to fetch")).trace = 1 :=
  c1_onComplete_fires_exactly_once jpFix cbsAll "Signal a = 1;" optsNone
    (.netFail "Failed to fetch") rfl benignS_const_none

/-- Claim C2: for every run in which the initial response has a
non-success status, with onError and onComplete supplied and onError
returning normally, onError fires exactly once with a non-empty message
(the message field of the JSON response body when truthy, else the
generic message naming the status code), then completion fires, no
other callback fires, and the result never depends on the response body
stream, which is not read for events. -/
theorem c2_non_ok_response (jp : List Char → Option Envelope) (cbs : Callbacks)
    (source : String) (options : Options) (r : HttpResp)
    (hok : respOk r.status = false)
    (fE : String → Option String) (hE : cbs.onError = some fE)
    (hEb : ∀ s, fE s = none) (gC : Unit → Option String)
    (hC : cbs.onComplete = some gC) :
    (compileWithStreaming jp cbs source options (.resp r)).trace
        = [Call.error (errorMessageOf r.status r.jsonMessage), Call.complete] ∧
    errorMessageOf r.status r.jsonMessage ≠ "" ∧
    ∀ (chunks : List (List Char)) (rf : Option String),
      compileWithStreaming jp cbs source options
          (.resp ⟨r.status, r.jsonMessage, chunks, rf⟩)
        = compileWithStreaming jp cbs source options (.resp r) := by
  refine ⟨?_, ?_, ?_⟩
  · rw [run_resp_not_ok jp cbs source options r hok]
    simp [handleCatch, hE, hEb, callComplete, initState, hC]
  · have hne : ∀ n : Nat, "Server error: " ++ toString n ≠ "" := by
      intro n hcontra
      have hlen : ("Server error: " ++ toString n).length = 0 := by rw [hcontra]; rfl
      rw [String.length_append] at hlen
      have h14 : "Server error: ".length = 14 := rfl
      omega
    cases hjm : r.jsonMessage with
    | none => simpa [errorMessageOf, hjm] using hne r.status
    | some m =>
      by_cases hm : m = ""
      · simpa [errorMessageOf, hjm, hm] using hne r.status
      · simp [errorMessageOf, hjm, hm]
  · intro chunks rf
    rw [run_resp_not_ok jp cbs source options r hok,
      run_resp_not_ok jp cbs source options ⟨r.status, r.jsonMessage, chunks, rf⟩ hok]

/-! Field-level equation lemmas and end-line tracking, used for the
ordering and buffer-boundary claims. -/

lemma run_resp_fields_not_ok (jp : List Char → Option Envelope) (cbs : Callbacks)
    (source : String) (options : Options) (status : Nat) (jm : Option String)
    (chunks : List (List Char)) (rf : Option String) (hok : respOk status = false) :
    compileWithStreaming jp cbs source options (.resp ⟨status, jm, chunks, rf⟩)
      = ⟨streamingRequestBody source options,
         (handleCatch cbs initState (errorMessageOf status jm)).1.trace,
         (handleCatch cbs initState (errorMessageOf status jm)).1.diags,
         (handleCatch cbs initState (errorMessageOf status jm)).2⟩ := by
  simp [compileWithStreaming, hok, errorMessageOf]

lemma run_resp_fields_ok_done (jp : List Char → Option Envelope) (cbs : Callbacks)
    (source : String) (options : Options) (status : Nat) (jm : Option String)
    (chunks : List (List Char)) (hok : respOk status = true) :
    compileWithStreaming jp cbs source options (.resp ⟨status, jm, chunks, none⟩)
      = match callComplete cbs ((chunks.foldl (processChunk jp cbs) ⟨[], initState⟩).st) with
        | (st, none) => ⟨streamingRequestBody source options, st.trace, st.diags, none⟩
        | (st, some m) =>
          ⟨streamingRequestBody source options, (handleCatch cbs st m).1.trace,
           (handleCatch cbs st m).1.diags, (handleCatch cbs st m).2⟩ := by
  simp [compileWithStreaming, hok]

lemma run_resp_fields_ok_fail (jp : List Char → Option Envelope) (cbs : Callbacks)
    (source : String) (options : Options) (status : Nat) (jm : Option String)
    (chunks : List (List Char)) (msg : String) (hok : respOk status = true) :
    compileWithStreaming jp cbs source options (.resp ⟨status, jm, chunks, some msg⟩)
      = ⟨streamingRequestBody source options,
         (handleCatch cbs ((chunks.foldl (processChunk jp cbs) ⟨[], initState⟩).st) msg).1.trace,
         (handleCatch cbs ((chunks.foldl (processChunk jp cbs) ⟨[], initState⟩).st) msg).1.diags,
         (handleCatch cbs ((chunks.foldl (processChunk jp cbs) ⟨[], initState⟩).st) msg).2⟩ := by
  simp [compileWithStreaming, hok]

lemma chunks_fold_eq_one_chunk (jp : List Char → Option Envelope) (cbs : Callbacks)
    (chunks : List (List Char)) :
    chunks.foldl (processChunk jp cbs) ⟨[], initState⟩
      = processChunk jp cbs ⟨[], initState⟩ chunks.flatten := by
  rw [foldl_processChunk_eq_flatten jp cbs chunks ⟨[], initState⟩ (by simp),
    ← processChunk_eq_foldl jp cbs chunks.flatten ⟨[], initState⟩ (by simp)]

lemma chunks_fold_st (jp : List Char → Option Envelope) (cbs : Callbacks)
    (chunks : List (List Char)) :
    (chunks.foldl (processChunk jp cbs) ⟨[], initState⟩).st
      = (((chunks.flatten).splitOnP (· == '\n')).dropLast).foldl
          (lineStep jp cbs) initState := by
  rw [chunks_fold_eq_one_chunk]
  simp [processChunk]

lemma lineStep_not_data (jp : List Char → Option Envelope) (cbs : Callbacks)
    (st : LoopState) (line : List Char)
    (hpre : "data: ".toList.isPrefixOf line = false) :
    lineStep jp cbs st line = st := by
  unfold lineStep
  split
  · rename_i h; rw [hpre] at h; cases h
  · rfl

lemma lineStep_parse_fail (jp : List Char → Option Envelope) (cbs : Callbacks)
    (st : LoopState) (line : List Char)
    (hpre : "data: ".toList.isPrefixOf line = true) (hjp : jp (line.drop 6) = none) :
    lineStep jp cbs st line = { st with diags := st.diags ++ [parseFailDiag] } := by
  unfold lineStep
  split
  · rw [hjp]
  · rename_i h; exact absurd hpre h

lemma lineStep_dispatch_ok (jp : List Char → Option Envelope) (cbs : Callbacks)
    (st : LoopState) (line : List Char) (ev : Envelope) (st2 : LoopState)
    (hpre : "data: ".toList.isPrefixOf line = true)
    (hjp : jp (line.drop 6) = some ev) (hdp : dispatch cbs st ev = (st2, none)) :
    lineStep jp cbs st line = st2 := by
  unfold lineStep
  split
  · rw [hjp]
    show (match dispatch cbs st ev with
      | (st3, none) => st3
      | (st3, some m) => { st3 with diags := st3.diags ++ [throwDiag m] }) = st2
    rw [hdp]
  · rename_i h; exact absurd hpre h

lemma lineStep_dispatch_throw (jp : List Char → Option Envelope) (cbs : Callbacks)
    (st : LoopState) (line : List Char) (ev : Envelope) (st2 : LoopState) (m : String)
    (hpre : "data: ".toList.isPrefixOf line = true)
    (hjp : jp (line.drop 6) = some ev) (hdp : dispatch cbs st ev = (st2, some m)) :
    lineStep jp cbs st line = { st2 with diags := st2.diags ++ [throwDiag m] } := by
  unfold lineStep
  split
  · rw [hjp]
    show (match dispatch cbs st ev with
      | (st3, none) => st3
      | (st3, some m2) => { st3 with diags := st3.diags ++ [throwDiag m2] })
      = { st2 with diags := st2.diags ++ [throwDiag m] }
    rw [hdp]
  · rename_i h; exact absurd hpre h

lemma dispatch_end (cbs : Callbacks) (st : LoopState) (ev : Envelope)
    (g : Unit → Option String) (hmatch : ev.type = some "end")
    (hg : cbs.onComplete = some g) (hflag : st.completeCalled = false) :
    dispatch cbs st ev
      = ({ st with completeCalled := true, trace := st.trace ++ [Call.complete] }, g ()) := by
  simp [dispatch, hmatch, callComplete, hflag, hg]

lemma lineStep_endLine (jp : List Char → Option Envelope) (cbs : Callbacks)
    (st : LoopState) (L : List Char) (g : Unit → Option String)
    (hE : isEndLine jp L = true) (hg : cbs.onComplete = some g)
    (hflag : st.completeCalled = false) :
    (lineStep jp cbs st L).trace = st.trace ++ [Call.complete] ∧
    (lineStep jp cbs st L).completeCalled = true := by
  have hE2 := hE
  simp only [isEndLine, Bool.and_eq_true] at hE2
  obtain ⟨hpre, hmatch⟩ := hE2
  cases hjp : jp (L.drop 6) with
  | none => rw [hjp] at hmatch; simp at hmatch
  | some ev =>
    rw [hjp] at hmatch
    simp only [beq_iff_eq] at hmatch
    have hd := dispatch_end cbs st ev g hmatch hg hflag
    cases hge : g () with
    | none =>
      rw [hge] at hd
      rw [lineStep_dispatch_ok jp cbs st L ev _ hpre hjp hd]
      exact ⟨rfl, rfl⟩
    | some m =>
      rw [hge] at hd
      rw [lineStep_dispatch_throw jp cbs st L ev _ m hpre hjp hd]
      exact ⟨rfl, rfl⟩

lemma lineStep_flag_of_not_end (jp : List Char → Option Envelope) (cbs : Callbacks)
    (st : LoopState) (line : List Char) (hne : isEndLine jp line = false) :
    (lineStep jp cbs st line).completeCalled = st.completeCalled := by
  cases hpre : "data: ".toList.isPrefixOf line with
  | false => rw [lineStep_not_data jp cbs st line hpre]
  | true =>
    cases hjp : jp (line.drop 6) with
    | none => rw [lineStep_parse_fail jp cbs st line hpre hjp]
    | some ev =>
      have hev : ev.type ≠ some "end" := by
        simp only [isEndLine, hpre, Bool.true_and, hjp] at hne
        simpa using hne
      have hd := dispatch_flag cbs st ev hev
      rcases hdp : dispatch cbs st ev with ⟨st2, e⟩
      rw [hdp] at hd
      cases e with
      | none => rw [lineStep_dispatch_ok jp cbs st line ev st2 hpre hjp hdp]; exact hd
      | some m =>
        rw [lineStep_dispatch_throw jp cbs st line ev st2 m hpre hjp hdp]
        exact hd

lemma foldl_lineStep_flag_of_no_end (jp : List Char → Option Envelope) (cbs : Callbacks)
    (lines : List (List Char)) :
    ∀ st : LoopState, (∀ l ∈ lines, isEndLine jp l = false) →
      (lines.foldl (lineStep jp cbs) st).completeCalled = st.completeCalled := by
  induction lines with
  | nil => intro st _; rfl
  | cons l ls ih =>
    intro st h
    simp only [List.foldl_cons]
    rw [ih _ (fun x hx => h x (by simp [hx]))]
    exact lineStep_flag_of_not_end jp cbs st l (h l (by simp))

/-- Claim C3: for every well-formed event stream, however its text is
partitioned into read chunks (splits inside a line or inside an event
included; the streaming text decoder already reassembles split
characters, so character sequences are the faithful granularity), the
run equals the run on the undivided text, so every event line is
reassembled and dispatched exactly once, in server framing order; the
dispatched trace is exactly the in-order fold over the complete lines
followed by the final completion trigger; and when the last complete
line of the stream is the single End envelope, the completion call is
the last entry of the trace and occurs exactly once. -/
theorem c3_chunk_partition_and_order (jp : List Char → Option Envelope) (cbs : Callbacks)
    (source : String) (options : Options) (status : Nat) (jm : Option String)
    (chunks : List (List Char)) :
    (∀ rf : Option String,
      compileWithStreaming jp cbs source options (.resp ⟨status, jm, chunks, rf⟩)
        = compileWithStreaming jp cbs source options
            (.resp ⟨status, jm, [chunks.flatten], rf⟩)) ∧
    (respOk status = true → benignU cbs.onComplete →
      (compileWithStreaming jp cbs source options (.resp ⟨status, jm, chunks, none⟩)).trace
        = ((callComplete cbs
            ((((chunks.flatten).splitOnP (· == '\n')).dropLast).foldl
              (lineStep jp cbs) initState)).1).trace) ∧
    (∀ (g : Unit → Option String) (pre : List (List Char)) (L : List Char),
      respOk status = true → cbs.onComplete = some g →
      ((chunks.flatten).splitOnP (· == '\n')).dropLast = pre ++ [L] →
      (∀ l ∈ pre, isEndLine jp l = false) → isEndLine jp L = true →
      ((compileWithStreaming jp cbs source options
          (.resp ⟨status, jm, chunks, none⟩)).trace.getLast? = some Call.complete ∧
        countC (compileWithStreaming jp cbs source options
          (.resp ⟨status, jm, chunks, none⟩)).trace = 1)) := by
  have hfold : chunks.foldl (processChunk jp cbs) ⟨[], initState⟩
      = [chunks.flatten].foldl (processChunk jp cbs) ⟨[], initState⟩ := by
    rw [chunks_fold_eq_one_chunk]
    simp only [List.foldl_cons, List.foldl_nil]
  refine ⟨?_, ?_, ?_⟩
  · intro rf
    by_cases hok : respOk status = true
    · cases rf with
      | none =>
        rw [run_resp_fields_ok_done jp cbs source options status jm chunks hok,
          run_resp_fields_ok_done jp cbs source options status jm [chunks.flatten] hok,
          hfold]
      | some msg =>
        rw [run_resp_fields_ok_fail jp cbs source options status jm chunks msg hok,
          run_resp_fields_ok_fail jp cbs source options status jm [chunks.flatten] msg hok,
          hfold]
    · have hok2 : respOk status = false := by simpa using hok
      rw [run_resp_fields_not_ok jp cbs source options status jm chunks rf hok2,
        run_resp_fields_not_ok jp cbs source options status jm [chunks.flatten] rf hok2]
  · intro hok hb
    rw [run_resp_fields_ok_done jp cbs source options status jm chunks hok, chunks_fold_st]
    rcases hcc : callComplete cbs
        ((((chunks.flatten).splitOnP (· == '\n')).dropLast).foldl
          (lineStep jp cbs) initState) with ⟨st, e⟩
    have he : e = none := by
      have h := callComplete_snd_benign cbs
        ((((chunks.flatten).splitOnP (· == '\n')).dropLast).foldl
          (lineStep jp cbs) initState) hb
      rw [hcc] at h; exact h
    subst he
    rfl
  · intro g pre L hok hg hsplit hpreNoEnd hLend
    have hC : cbs.onComplete.isSome = true := by simp [hg]
    have hflagF : (pre.foldl (lineStep jp cbs) initState).completeCalled = false :=
      foldl_lineStep_flag_of_no_end jp cbs pre initState hpreNoEnd
    have hlatchF : latchInv (pre.foldl (lineStep jp cbs) initState) :=
      foldl_lineStep_latch jp cbs pre hC initState latchInv_initState
    have hcountF : countC (pre.foldl (lineStep jp cbs) initState).trace = 0 := by
      simpa [latchInv, hflagF] using hlatchF
    have hend := lineStep_endLine jp cbs (pre.foldl (lineStep jp cbs) initState) L g
      hLend hg hflagF
    have hfinal : (((chunks.flatten).splitOnP (· == '\n')).dropLast).foldl
        (lineStep jp cbs) initState
        = lineStep jp cbs (pre.foldl (lineStep jp cbs) initState) L := by
      rw [hsplit]
      simp [List.foldl_append]
    have htr : (compileWithStreaming jp cbs source options
        (.resp ⟨status, jm, chunks, none⟩)).trace
        = (pre.foldl (lineStep jp cbs) initState).trace ++ [Call.complete] := by
      rw [run_resp_fields_ok_done jp cbs source options status jm chunks hok,
        chunks_fold_st, hfinal,
        callComplete_of_called cbs (lineStep jp cbs (pre.foldl (lineStep jp cbs) initState) L)
          hend.2]
      exact hend.1
    rw [htr]
    constructor
    · exact List.getLast?_concat _
    · rw [countC_append, hcountF, countC_single_complete]

/-- Witness for C3: a two-chunk stream whose second chunk starts inside
the first event line, ending with an End envelope. -/
theorem c3_chunk_partition_and_order_witness :
    (compileWithStreaming jpFix cbsAll "s" optsNone
        (.resp ⟨200, none,
          ["data: evtl".toList, "og\ndata: evtend\n".toList], none⟩)).trace.getLast?
      = some Call.complete ∧
    countC (compileWithStreaming jpFix cbsAll "s" optsNone
        (.resp ⟨200, none,
          ["data: evtl".toList, "og\ndata: evtend\n".toList], none⟩)).trace = 1 :=
  (c3_chunk_partition_and_order jpFix cbsAll "s" optsNone 200 none
      ["data: evtl".toList, "og\ndata: evtend\n".toList]).2.2
    (fun _ => none) ["data: evtlog".toList] "data: evtend".toList
    (by decide) rfl (by decide) (by decide) (by decide)

/-! Diagnostics never feed back into control flow: the latch and trace
of every step are independent of the accumulated diagnostics. -/

lemma callComplete_diags_indep (cbs : Callbacks) (cc : Bool) (tr : List Call)
    (d d' : List String) :
    ((callComplete cbs ⟨cc, tr, d⟩).1.completeCalled
      = (callComplete cbs ⟨cc, tr, d'⟩).1.completeCalled) ∧
    ((callComplete cbs ⟨cc, tr, d⟩).1.trace = (callComplete cbs ⟨cc, tr, d'⟩).1.trace) ∧
    ((callComplete cbs ⟨cc, tr, d⟩).2 = (callComplete cbs ⟨cc, tr, d'⟩).2) := by
  cases cc <;> cases hc : cbs.onComplete <;> simp [callComplete, hc]

lemma invoke1_diags_indep (cb : Option (String → Option String)) (mk : String → Call)
    (arg : String) (cc : Bool) (tr : List Call) (d d' : List String) :
    ((invoke1 cb mk arg ⟨cc, tr, d⟩).1.completeCalled
      = (invoke1 cb mk arg ⟨cc, tr, d'⟩).1.completeCalled) ∧
    ((invoke1 cb mk arg ⟨cc, tr, d⟩).1.trace = (invoke1 cb mk arg ⟨cc, tr, d'⟩).1.trace) ∧
    ((invoke1 cb mk arg ⟨cc, tr, d⟩).2 = (invoke1 cb mk arg ⟨cc, tr, d'⟩).2) := by
  cases cb <;> simp [invoke1]

lemma dispatch_diags_indep (cbs : Callbacks) (ev : Envelope) (cc : Bool)
    (tr : List Call) (d d' : List String) :
    ((dispatch cbs ⟨cc, tr, d⟩ ev).1.completeCalled
      = (dispatch cbs ⟨cc, tr, d'⟩ ev).1.completeCalled) ∧
    ((dispatch cbs ⟨cc, tr, d⟩ ev).1.trace = (dispatch cbs ⟨cc, tr, d'⟩ ev).1.trace) ∧
    ((dispatch cbs ⟨cc, tr, d⟩ ev).2 = (dispatch cbs ⟨cc, tr, d'⟩ ev).2) := by
  cases ht : ev.type with
  | none => simp [dispatch, ht]
  | some t =>
    simp only [dispatch, ht]
    split_ifs
    all_goals first
      | exact invoke1_diags_indep _ _ _ cc tr d d'
      | exact callComplete_diags_indep cbs cc tr d d'
      | simp

lemma lineStep_diags_indep (jp : List Char → Option Envelope) (cbs : Callbacks)
    (line : List Char) (cc : Bool) (tr : List Call) (d d' : List String) :
    ((lineStep jp cbs ⟨cc, tr, d⟩ line).completeCalled
      = (lineStep jp cbs ⟨cc, tr, d'⟩ line).completeCalled) ∧
    ((lineStep jp cbs ⟨cc, tr, d⟩ line).trace
      = (lineStep jp cbs ⟨cc, tr, d'⟩ line).trace) := by
  cases hpre : "data: ".toList.isPrefixOf line with
  | false =>
    rw [lineStep_not_data jp cbs _ line hpre, lineStep_not_data jp cbs _ line hpre]
    exact ⟨rfl, rfl⟩
  | true =>
    cases hjp : jp (line.drop 6) with
    | none =>
      rw [lineStep_parse_fail jp cbs _ line hpre hjp,
        lineStep_parse_fail jp cbs _ line hpre hjp]
      exact ⟨rfl, rfl⟩
    | some ev =>
      have hd := dispatch_diags_indep cbs ev cc tr d d'
      rcases hdp : dispatch cbs ⟨cc, tr, d⟩ ev with ⟨st2, e⟩
      rcases hdp2 : dispatch cbs ⟨cc, tr, d'⟩ ev with ⟨st3, e2⟩
      rw [hdp, hdp2] at hd
      obtain ⟨h1, h2, h3⟩ := hd
      simp only at h1 h2 h3
      cases e with
      | none =>
        cases e2 with
        | none =>
          rw [lineStep_dispatch_ok jp cbs _ line ev st2 hpre hjp hdp,
            lineStep_dispatch_ok jp cbs _ line ev st3 hpre hjp hdp2]
          exact ⟨h1, h2⟩
        | some m => simp at h3
      | some m =>
        cases e2 with
        | none => simp at h3
        | some m2 =>
          rw [lineStep_dispatch_throw jp cbs _ line ev st2 m hpre hjp hdp,
            lineStep_dispatch_throw jp cbs _ line ev st3 m2 hpre hjp hdp2]
          exact ⟨h1, h2⟩

lemma foldl_lineStep_diags_indep (jp : List Char → Option Envelope) (cbs : Callbacks)
    (lines : List (List Char)) :
    ∀ (cc : Bool) (tr : List Call) (d d' : List String),
      ((lines.foldl (lineStep jp cbs) ⟨cc, tr, d⟩).completeCalled
        = (lines.foldl (lineStep jp cbs) ⟨cc, tr, d'⟩).completeCalled) ∧
      ((lines.foldl (lineStep jp cbs) ⟨cc, tr, d⟩).trace
        = (lines.foldl (lineStep jp cbs) ⟨cc, tr, d'⟩).trace) := by
  induction lines with
  | nil => intro cc tr d d'; exact ⟨rfl, rfl⟩
  | cons l ls ih =>
    intro cc tr d d'
    simp only [List.foldl_cons]
    obtain ⟨hfl, htr⟩ := lineStep_diags_indep jp cbs l cc tr d d'
    have h2 := ih (lineStep jp cbs ⟨cc, tr, d⟩ l).completeCalled
      (lineStep jp cbs ⟨cc, tr, d⟩ l).trace
      (lineStep jp cbs ⟨cc, tr, d⟩ l).diags (lineStep jp cbs ⟨cc, tr, d'⟩ l).diags
    have e1 : (⟨(lineStep jp cbs ⟨cc, tr, d⟩ l).completeCalled,
        (lineStep jp cbs ⟨cc, tr, d⟩ l).trace,
        (lineStep jp cbs ⟨cc, tr, d⟩ l).diags⟩ : LoopState)
        = lineStep jp cbs ⟨cc, tr, d⟩ l := rfl
    have e2 : (⟨(lineStep jp cbs ⟨cc, tr, d⟩ l).completeCalled,
        (lineStep jp cbs ⟨cc, tr, d⟩ l).trace,
        (lineStep jp cbs ⟨cc, tr, d'⟩ l).diags⟩ : LoopState)
        = lineStep jp cbs ⟨cc, tr, d'⟩ l := by
      rw [hfl, htr]
    rw [e1, e2] at h2
    exact h2

/-- Claim C4: a data line whose remainder fails to parse as JSON never
invokes onError, never aborts the read loop, and leaves every later
line processed exactly as it would have been without the malformed
line; its only effect is one local diagnostic log entry. -/
theorem c4_malformed_data_line (jp : List Char → Option Envelope) (cbs : Callbacks)
    (st : LoopState) (bad : List Char)
    (hpre : "data: ".toList.isPrefixOf bad = true)
    (hjp : jp (bad.drop 6) = none) :
    lineStep jp cbs st bad = { st with diags := st.diags ++ [parseFailDiag] } ∧
    ∀ (pre post : List (List Char)) (st0 : LoopState),
      (((pre ++ [bad] ++ post).foldl (lineStep jp cbs) st0).trace
        = ((pre ++ post).foldl (lineStep jp cbs) st0).trace) ∧
      (((pre ++ [bad] ++ post).foldl (lineStep jp cbs) st0).completeCalled
        = ((pre ++ post).foldl (lineStep jp cbs) st0).completeCalled) := by
  have hbad : ∀ s : LoopState,
      lineStep jp cbs s bad = { s with diags := s.diags ++ [parseFailDiag] } :=
    fun s => lineStep_parse_fail jp cbs s bad hpre hjp
  refine ⟨hbad st, ?_⟩
  intro pre post st0
  simp only [List.foldl_append, List.foldl_cons, List.foldl_nil]
  rw [hbad (pre.foldl (lineStep jp cbs) st0)]
  have h := foldl_lineStep_diags_indep jp cbs post
    (pre.foldl (lineStep jp cbs) st0).completeCalled
    (pre.foldl (lineStep jp cbs) st0).trace
    ((pre.foldl (lineStep jp cbs) st0).diags ++ [parseFailDiag])
    (pre.foldl (lineStep jp cbs) st0).diags
  exact ⟨h.2, h.1⟩

/-- Witness for C4 at a concrete malformed line. -/
theorem c4_malformed_data_line_witness :
    lineStep jpFix cbsAll initState ("data: oops".toList)
      = { initState with diags := initState.diags ++ [parseFailDiag] } :=
  (c4_malformed_data_line jpFix cbsAll initState ("data: oops".toList)
    (by decide) (by decide)).1

/-! Per-type dispatch equations under non-throwing callbacks, feeding
the dispatch-table claim. -/

/-- The trace entry produced by an optional content callback: one entry
when present, nothing when absent. -/
def presentMark (cb : Option (String → Option String)) (c : Call) : List Call :=
  match cb with
  | some _ => [c]
  | none => []

/-- The trace entry produced by the optional completion callback. -/
def presentMarkU (cb : Option (Unit → Option String)) : List Call :=
  match cb with
  | some _ => [Call.complete]
  | none => []

lemma dispatch_log (cbs : Callbacks) (st : LoopState) (ev : Envelope)
    (ht : ev.type = some "log") (hbe : benignS cbs.onLog) :
    dispatch cbs st ev
      = ({ st with trace := st.trace ++ presentMark cbs.onLog (Call.log ev.content) }, none) := by
  cases hcb : cbs.onLog with
  | none => simp [dispatch, ht, invoke1, hcb, presentMark]
  | some f => simp [dispatch, ht, invoke1, hcb, presentMark, hbe f hcb ev.content]

lemma dispatch_blueprint (cbs : Callbacks) (st : LoopState) (ev : Envelope)
    (ht : ev.type = some "blueprint") (hbe : benignS cbs.onBlueprint) :
    dispatch cbs st ev
      = ({ st with
          trace := st.trace ++ presentMark cbs.onBlueprint (Call.blueprint ev.content) },
         none) := by
  cases hcb : cbs.onBlueprint with
  | none => simp [dispatch, ht, invoke1, hcb, presentMark]
  | some f => simp [dispatch, ht, invoke1, hcb, presentMark, hbe f hcb ev.content]

lemma dispatch_json (cbs : Callbacks) (st : LoopState) (ev : Envelope)
    (ht : ev.type = some "json") (hbe : benignS cbs.onJson) :
    dispatch cbs st ev
      = ({ st with trace := st.trace ++ presentMark cbs.onJson (Call.json ev.content) }, none) := by
  cases hcb : cbs.onJson with
  | none => simp [dispatch, ht, invoke1, hcb, presentMark]
  | some f => simp [dispatch, ht, invoke1, hcb, presentMark, hbe f hcb ev.content]

lemma dispatch_error (cbs : Callbacks) (st : LoopState) (ev : Envelope)
    (ht : ev.type = some "error") (hbe : benignS cbs.onError) :
    dispatch cbs st ev
      = ({ st with trace := st.trace ++ presentMark cbs.onError (Call.error ev.content) }, none) := by
  cases hcb : cbs.onError with
  | none => simp [dispatch, ht, invoke1, hcb, presentMark]
  | some f => simp [dispatch, ht, invoke1, hcb, presentMark, hbe f hcb ev.content]

lemma dispatch_status (cbs : Callbacks) (st : LoopState) (ev : Envelope)
    (ht : ev.type = some "status") (hbe : benignS cbs.onStatus) :
    dispatch cbs st ev
      = ({ st with trace := st.trace ++ presentMark cbs.onStatus (Call.status ev.content) },
         none) := by
  cases hcb : cbs.onStatus with
  | none => simp [dispatch, ht, invoke1, hcb, presentMark]
  | some f => simp [dispatch, ht, invoke1, hcb, presentMark, hbe f hcb ev.content]

lemma dispatch_queue (cbs : Callbacks) (st : LoopState) (ev : Envelope)
    (ht : ev.type = some "queue") (hbe : benignS cbs.onQueue) :
    dispatch cbs st ev
      = ({ st with trace := st.trace ++ presentMark cbs.onQueue (Call.queue ev.content) },
         none) := by
  cases hcb : cbs.onQueue with
  | none => simp [dispatch, ht, invoke1, hcb, presentMark]
  | some f => simp [dispatch, ht, invoke1, hcb, presentMark, hbe f hcb ev.content]

/-- Claim C5: a complete line is treated as a protocol event exactly
when it starts with the data prefix; its JSON remainder is dispatched
by the type field to the single matching callback, an absent callback
makes the event a no-op, the end type triggers the completion latch,
and a type outside the known set (or an envelope without a type) is
silently dropped with no callback invoked. -/
theorem c5_line_gating_and_dispatch (jp : List Char → Option Envelope) (cbs : Callbacks)
    (st : LoopState) (line : List Char) (hb : benignCbs cbs) :
    ("data: ".toList.isPrefixOf line = false → lineStep jp cbs st line = st) ∧
    ∀ ev : Envelope, "data: ".toList.isPrefixOf line = true → jp (line.drop 6) = some ev →
      ((ev.type = some "log" → lineStep jp cbs st line
          = { st with trace := st.trace ++ presentMark cbs.onLog (Call.log ev.content) }) ∧
       (ev.type = some "blueprint" → lineStep jp cbs st line
          = { st with
              trace := st.trace ++ presentMark cbs.onBlueprint (Call.blueprint ev.content) }) ∧
       (ev.type = some "json" → lineStep jp cbs st line
          = { st with trace := st.trace ++ presentMark cbs.onJson (Call.json ev.content) }) ∧
       (ev.type = some "error" → lineStep jp cbs st line
          = { st with trace := st.trace ++ presentMark cbs.onError (Call.error ev.content) }) ∧
       (ev.type = some "status" → lineStep jp cbs st line
          = { st with trace := st.trace ++ presentMark cbs.onStatus (Call.status ev.content) }) ∧
       (ev.type = some "queue" → lineStep jp cbs st line
          = { st with trace := st.trace ++ presentMark cbs.onQueue (Call.queue ev.content) }) ∧
       (ev.type = some "end" → lineStep jp cbs st line
          = if st.completeCalled then st
            else { st with
                   completeCalled := true
                   trace := st.trace ++ presentMarkU cbs.onComplete }) ∧
       (∀ t : String, ev.type = some t →
          t ∉ (["log", "blueprint", "json", "error", "status", "queue", "end"] : List String) →
          lineStep jp cbs st line = st) ∧
       (ev.type = none → lineStep jp cbs st line = st)) := by
  obtain ⟨hbL, hbB, hbJ, hbE, hbS, hbQ, hbC⟩ := hb
  constructor
  · intro hpre
    exact lineStep_not_data jp cbs st line hpre
  · intro ev hpre hjp
    refine ⟨?_, ?_, ?_, ?_, ?_, ?_, ?_, ?_, ?_⟩
    · intro ht
      exact lineStep_dispatch_ok jp cbs st line ev _ hpre hjp (dispatch_log cbs st ev ht hbL)
    · intro ht
      exact lineStep_dispatch_ok jp cbs st line ev _ hpre hjp
        (dispatch_blueprint cbs st ev ht hbB)
    · intro ht
      exact lineStep_dispatch_ok jp cbs st line ev _ hpre hjp (dispatch_json cbs st ev ht hbJ)
    · intro ht
      exact lineStep_dispatch_ok jp cbs st line ev _ hpre hjp (dispatch_error cbs st ev ht hbE)
    · intro ht
      exact lineStep_dispatch_ok jp cbs st line ev _ hpre hjp (dispatch_status cbs st ev ht hbS)
    · intro ht
      exact lineStep_dispatch_ok jp cbs st line ev _ hpre hjp (dispatch_queue cbs st ev ht hbQ)
    · intro ht
      by_cases hflag : st.completeCalled = true
      · have hd : dispatch cbs st ev = (st, none) := by
          simp [dispatch, ht, callComplete, hflag]
        rw [lineStep_dispatch_ok jp cbs st line ev st hpre hjp hd, if_pos hflag]
      · have hflag2 : st.completeCalled = false := by simpa using hflag
        cases hcb : cbs.onComplete with
        | none =>
          have hd : dispatch cbs st ev = ({ st with completeCalled := true }, none) := by
            simp [dispatch, ht, callComplete, hflag2, hcb]
          rw [lineStep_dispatch_ok jp cbs st line ev _ hpre hjp hd]
          simp [hflag2, presentMarkU, hcb]
        | some g =>
          have hd := dispatch_end cbs st ev g ht hcb hflag2
          rw [hbC g hcb] at hd
          rw [lineStep_dispatch_ok jp cbs st line ev _ hpre hjp hd]
          simp [hflag2, presentMarkU, hcb]
    · intro t ht htn
      simp only [List.mem_cons, List.not_mem_nil, or_false] at htn
      push_neg at htn
      obtain ⟨h1, h2, h3, h4, h5, h6, h7⟩ := htn
      have hd : dispatch cbs st ev = (st, none) := by
        simp [dispatch, ht, h1, h2, h3, h4, h5, h6, h7]
      exact lineStep_dispatch_ok jp cbs st line ev st hpre hjp hd
    · intro ht
      have hd : dispatch cbs st ev = (st, none) := by simp [dispatch, ht]
      exact lineStep_dispatch_ok jp cbs st line ev st hpre hjp hd

/-- Witness for C5: the blueprint case at a concrete event line. -/
theorem c5_line_gating_and_dispatch_witness :
    lineStep jpFix cbsAll initState ("data: evtbp".toList)
      = { initState with
          trace := initState.trace
            ++ presentMark cbsAll.onBlueprint (Call.blueprint "0eNG") } :=
  ((c5_line_gating_and_dispatch jpFix cbsAll initState ("data: evtbp".toList)
      cbsAll_benign).2 ⟨some "blueprint", "0eNG"⟩ (by decide) (by decide)).2.1 rfl

/-- Claim C9: when the stream ends (done) while the line buffer still
holds a non-empty trailing fragment — including a complete data event
line not followed by a newline — the fragment is never parsed or
dispatched: the run is identical to the run without the fragment, and
only the final completion trigger fires after the loop exits. -/
theorem c9_trailing_fragment_discarded (jp : List Char → Option Envelope) (cbs : Callbacks)
    (source : String) (options : Options) (status : Nat) (jm : Option String)
    (chunks : List (List Char)) (frag : List Char)
    (hfrag : ∀ c ∈ frag, c ≠ '\n') :
    compileWithStreaming jp cbs source options (.resp ⟨status, jm, chunks ++ [frag], none⟩)
      = compileWithStreaming jp cbs source options (.resp ⟨status, jm, chunks, none⟩) := by
  have hst : ((chunks ++ [frag]).foldl (processChunk jp cbs) ⟨[], initState⟩).st
      = (chunks.foldl (processChunk jp cbs) ⟨[], initState⟩).st := by
    rw [foldl_processChunk_eq_flatten jp cbs (chunks ++ [frag]) ⟨[], initState⟩ (by simp),
      foldl_processChunk_eq_flatten jp cbs chunks ⟨[], initState⟩ (by simp)]
    have hfl : (chunks ++ [frag]).flatten = chunks.flatten ++ frag := by simp
    rw [hfl, List.foldl_append]
    exact foldl_charStep_st_no_newline jp cbs frag _ hfrag
  by_cases hok : respOk status = true
  · rw [run_resp_fields_ok_done jp cbs source options status jm (chunks ++ [frag]) hok,
      run_resp_fields_ok_done jp cbs source options status jm chunks hok, hst]
  · have hok2 : respOk status = false := by simpa using hok
    rw [run_resp_fields_not_ok jp cbs source options status jm (chunks ++ [frag]) none hok2,
      run_resp_fields_not_ok jp cbs source options status jm chunks none hok2]

/-- Witness for C9: a complete data event line buffered without a
trailing newline is silently discarded. -/
theorem c9_trailing_fragment_discarded_witness :
    compileWithStreaming jpFix cbsAll "s" optsNone
        (.resp ⟨200, none, ["data: evtlog\n".toList] ++ ["data: evtend".toList], none⟩)
      = compileWithStreaming jpFix cbsAll "s" optsNone
        (.resp ⟨200, none, ["data: evtlog\n".toList], none⟩) :=
  c9_trailing_fragment_discarded jpFix cbsAll "s" optsNone 200 none
    ["data: evtlog\n".toList] ("data: evtend".toList) (by decide)

/-- Claim C10: an exception thrown by the invoked callback itself
(onLog, onBlueprint, onJson, onError, onStatus, onQueue, or onComplete
via the end case) is caught by the same per-line handler that swallows
JSON-parse failures: the callback invocation stays recorded, the only
extra effect is one diagnostic log entry, onError is not invoked by the
handler, the read loop is not aborted, and later lines continue to be
processed from the caught state. -/
theorem c10_callback_exception_contained (jp : List Char → Option Envelope)
    (cbs : Callbacks) (st : LoopState) (line : List Char) (ev : Envelope)
    (hpre : "data: ".toList.isPrefixOf line = true)
    (hjp : jp (line.drop 6) = some ev) :
    (∀ (st2 : LoopState) (m : String), dispatch cbs st ev = (st2, some m) →
      (lineStep jp cbs st line = { st2 with diags := st2.diags ++ [throwDiag m] } ∧
       ∀ post : List (List Char), (line :: post).foldl (lineStep jp cbs) st
         = post.foldl (lineStep jp cbs) { st2 with diags := st2.diags ++ [throwDiag m] })) ∧
    (∀ (f : String → Option String) (m : String),
      ev.type = some "log" → cbs.onLog = some f → f ev.content = some m →
      lineStep jp cbs st line
        = { st with
            trace := st.trace ++ [Call.log ev.content]
            diags := st.diags ++ [throwDiag m] }) ∧
    (∀ (f : String → Option String) (m : String),
      ev.type = some "blueprint" → cbs.onBlueprint = some f → f ev.content = some m →
      lineStep jp cbs st line
        = { st with
            trace := st.trace ++ [Call.blueprint ev.content]
            diags := st.diags ++ [throwDiag m] }) ∧
    (∀ (f : String → Option String) (m : String),
      ev.type = some "json" → cbs.onJson = some f → f ev.content = some m →
      lineStep jp cbs st line
        = { st with
            trace := st.trace ++ [Call.json ev.content]
            diags := st.diags ++ [throwDiag m] }) ∧
    (∀ (f : String → Option String) (m : String),
      ev.type = some "error" → cbs.onError = some f → f ev.content = some m →
      lineStep jp cbs st line
        = { st with
            trace := st.trace ++ [Call.error ev.content]
            diags := st.diags ++ [throwDiag m] }) ∧
    (∀ (f : String → Option String) (m : String),
      ev.type = some "status" → cbs.onStatus = some f → f ev.content = some m →
      lineStep jp cbs st line
        = { st with
            trace := st.trace ++ [Call.status ev.content]
            diags := st.diags ++ [throwDiag m] }) ∧
    (∀ (f : String → Option String) (m : String),
      ev.type = some "queue" → cbs.onQueue = some f → f ev.content = some m →
      lineStep jp cbs st line
        = { st with
            trace := st.trace ++ [Call.queue ev.content]
            diags := st.diags ++ [throwDiag m] }) ∧
    (∀ (g : Unit → Option String) (m : String),
      ev.type = some "end" → cbs.onComplete = some g → g () = some m →
      st.completeCalled = false →
      lineStep jp cbs st line
        = { st with
            completeCalled := true
            trace := st.trace ++ [Call.complete]
            diags := st.diags ++ [throwDiag m] }) := by
  refine ⟨?_, ?_, ?_, ?_, ?_, ?_, ?_, ?_⟩
  · intro st2 m hdp
    refine ⟨lineStep_dispatch_throw jp cbs st line ev st2 m hpre hjp hdp, ?_⟩
    intro post
    rw [List.foldl_cons, lineStep_dispatch_throw jp cbs st line ev st2 m hpre hjp hdp]
  · intro f m ht hcb hf
    have hd : dispatch cbs st ev
        = ({ st with trace := st.trace ++ [Call.log ev.content] }, some m) := by
      simp [dispatch, ht, invoke1, hcb, hf]
    exact lineStep_dispatch_throw jp cbs st line ev _ m hpre hjp hd
  · intro f m ht hcb hf
    have hd : dispatch cbs st ev
        = ({ st with trace := st.trace ++ [Call.blueprint ev.content] }, some m) := by
      simp [dispatch, ht, invoke1, hcb, hf]
    exact lineStep_dispatch_throw jp cbs st line ev _ m hpre hjp hd
  · intro f m ht hcb hf
    have hd : dispatch cbs st ev
        = ({ st with trace := st.trace ++ [Call.json ev.content] }, some m) := by
      simp [dispatch, ht, invoke1, hcb, hf]
    exact lineStep_dispatch_throw jp cbs st line ev _ m hpre hjp hd
  · intro f m ht hcb hf
    have hd : dispatch cbs st ev
        = ({ st with trace := st.trace ++ [Call.error ev.content] }, some m) := by
      simp [dispatch, ht, invoke1, hcb, hf]
    exact lineStep_dispatch_throw jp cbs st line ev _ m hpre hjp hd
  · intro f m ht hcb hf
    have hd : dispatch cbs st ev
        = ({ st with trace := st.trace ++ [Call.status ev.content] }, some m) := by
      simp [dispatch, ht, invoke1, hcb, hf]
    exact lineStep_dispatch_throw jp cbs st line ev _ m hpre hjp hd
  · intro f m ht hcb hf
    have hd : dispatch cbs st ev
        = ({ st with trace := st.trace ++ [Call.queue ev.content] }, some m) := by
      simp [dispatch, ht, invoke1, hcb, hf]
    exact lineStep_dispatch_throw jp cbs st line ev _ m hpre hjp hd
  · intro g m ht hcb hg hflag
    have hd := dispatch_end cbs st ev g ht hcb hflag
    rw [hg] at hd
    exact lineStep_dispatch_throw jp cbs st line ev _ m hpre hjp hd

/-- A callback set whose onLog throws. -/
def cbsThrow : Callbacks := { cbsAll with onLog := some fun _ => some "boom" }

/-- Witness for C10: a throwing onLog at a concrete event line. -/
theorem c10_callback_exception_contained_witness :
    lineStep jpFix cbsThrow initState ("data: evtlog".toList)
      = { initState with
          trace := initState.trace ++ [Call.log "parsing"]
          diags := initState.diags ++ [throwDiag "boom"] } :=
  (c10_callback_exception_contained jpFix cbsThrow initState ("data: evtlog".toList)
      ⟨some "log", "parsing"⟩ (by decide) (by decide)).2.1
    (fun _ => some "boom") "boom" rfl rfl rfl

/-! The synchronous fallback path. -/

lemma errorMessageOf_ne_empty (status : Nat) (jm : Option String) :
    errorMessageOf status jm ≠ "" := by
  have hne : ∀ n : Nat, "Server error: " ++ toString n ≠ "" := by
    intro n hcontra
    have hlen : ("Server error: " ++ toString n).length = 0 := by rw [hcontra]; rfl
    rw [String.length_append] at hlen
    have h14 : "Server error: ".length = 14 := rfl
    omega
  cases hjm : jm with
  | none => simpa [errorMessageOf] using hne status
  | some m =>
    by_cases hm : m = ""
    · simpa [errorMessageOf, hm] using hne status
    · simp [errorMessageOf, hm]

/-- Claim C6: compileSync returns a result only on a success status;
any non-success status fails with the server-provided message field
when present (and truthy), otherwise a generic fallback naming the
status code, and it never returns a partial result: the call either
returns the whole parsed body or fails. -/
theorem c6_sync_atomicity (source : String) (options : Options) :
    (∀ (outcome : SyncOutcome) (v : String),
      (compileSync source options outcome).result = Except.ok v →
      ∃ (status : Nat) (jm : Option String) (bj : Option String),
        outcome = SyncOutcome.resp status jm bj ∧ respOk status = true ∧ bj = some v) ∧
    (∀ (status : Nat) (jm : Option String) (bj : Option String), respOk status = false →
      (compileSync source options (SyncOutcome.resp status jm bj)).result
          = Except.error (errorMessageOf status jm) ∧
        errorMessageOf status jm ≠ "") ∧
    (∀ (status : Nat) (m : String) (bj : Option String), respOk status = false → m ≠ "" →
      (compileSync source options (SyncOutcome.resp status (some m) bj)).result
        = Except.error m) ∧
    (∀ (status : Nat) (bj : Option String), respOk status = false →
      (compileSync source options (SyncOutcome.resp status none bj)).result
        = Except.error ("Server error: " ++ toString status)) := by
  refine ⟨?_, ?_, ?_, ?_⟩
  · intro outcome v h
    cases outcome with
    | netFail m => simp [compileSync] at h
    | resp status jm bj =>
      by_cases hok : respOk status = true
      · cases bj with
        | some w =>
          simp [compileSync, hok] at h
          exact ⟨status, jm, some w, rfl, hok, by rw [h]⟩
        | none => simp [compileSync, hok] at h
      · have hok2 : respOk status = false := by simpa using hok
        simp [compileSync, hok2] at h
  · intro status jm bj hok
    exact ⟨by simp [compileSync, hok], errorMessageOf_ne_empty status jm⟩
  · intro status m bj hok hm
    simp [compileSync, hok, errorMessageOf, hm]
  · intro status bj hok
    simp [compileSync, hok, errorMessageOf]

/-- Witness for C6: a 404 response with no structured message. -/
theorem c6_sync_atomicity_witness :
    (compileSync "s" optsNone (SyncOutcome.resp 404 none (some "r"))).result
      = Except.error ("Server error: " ++ toString 404) :=
  (c6_sync_atomicity "s" optsNone).2.2.2 404 (some "r") (by decide)

/-! The health and connection probes. -/

/-- Claim C7: checkHealth and connect never throw — every outcome,
transport failure included, maps to a boolean — a transport failure or
non-success status yields false, and a success (2xx) status yields
true; connect has semantics identical to checkHealth. -/
theorem c7_probes_swallow_failures (outcome : ProbeOutcome) :
    (checkHealth outcome = true ↔
      ∃ status : Nat, outcome = ProbeOutcome.resp status ∧ respOk status = true) ∧
    (∀ msg : String, checkHealth (ProbeOutcome.netFail msg) = false) ∧
    (∀ status : Nat, checkHealth (ProbeOutcome.resp status) = respOk status) ∧
    (connect outcome = checkHealth outcome) := by
  refine ⟨?_, fun msg => rfl, fun status => rfl, ?_⟩
  · cases outcome with
    | netFail m => simp [checkHealth]
    | resp s =>
      constructor
      · intro h; exact ⟨s, rfl, h⟩
      · rintro ⟨s2, hs, hok⟩
        injection hs with h2
        rw [h2]
        exact hok
  · cases outcome <;> rfl

/-- Witness for C7: a 204 health response yields true. -/
theorem c7_probes_swallow_failures_witness :
    checkHealth (ProbeOutcome.resp 204) = true :=
  ((c7_probes_swallow_failures (ProbeOutcome.resp 204)).1).mpr ⟨204, rfl, by decide⟩

/-! Request serialization. -/

lemma compileWithStreaming_sent (jp : List Char → Option Envelope) (cbs : Callbacks)
    (source : String) (options : Options) (outcome : FetchOutcome) :
    (compileWithStreaming jp cbs source options outcome).sent
      = streamingRequestBody source options := by
  cases outcome with
  | netFail msg => rfl
  | resp r =>
    by_cases hok : respOk r.status = true
    · cases hrf : r.readFailure with
      | some msg => rw [run_resp_ok_fail jp cbs source options r msg hok hrf]
      | none =>
        rw [run_resp_ok_done jp cbs source options r hok hrf]
        rcases callComplete cbs ((r.chunks.foldl (processChunk jp cbs) ⟨[], initState⟩).st)
          with ⟨st, e⟩
        cases e <;> rfl
    · have hok2 : respOk r.status = false := by simpa using hok
      rw [run_resp_not_ok jp cbs source options r hok2]

lemma compileSync_sent (source : String) (options : Options) (outcome : SyncOutcome) :
    (compileSync source options outcome).sent = syncRequestBody source options := by
  cases outcome with
  | netFail m => rfl
  | resp status jm bj =>
    by_cases hok : respOk status = true
    · cases bj <;> simp [compileSync, hok]
    · have hok2 : respOk status = false := by simpa using hok
      simp [compileSync, hok2]

/-- Claim C8: every streaming request serializes the body fields
source, power_poles, blueprint_name, no_optimize, json_output and
log_level with json_output always false, absent options defaulting to
power_poles null, blueprint_name null, no_optimize false and log_level
info; the sync path serializes the same fields but honors the supplied
jsonOutput option, defaulting to false. -/
theorem c8_request_body_serialization (jp : List Char → Option Envelope)
    (cbs : Callbacks) (source : String) (options : Options)
    (outcome : FetchOutcome) (soutcome : SyncOutcome) :
    ((compileWithStreaming jp cbs source options outcome).sent
      = { source := source
          power_poles := jsOrNull options.powerPoles
          blueprint_name := jsOrNull options.blueprintName
          no_optimize := jsOrFalse options.noOptimize
          json_output := false
          log_level := jsOrDefault options.logLevel "info" }) ∧
    ((compileSync source options soutcome).sent
      = { source := source
          power_poles := jsOrNull options.powerPoles
          blueprint_name := jsOrNull options.blueprintName
          no_optimize := jsOrFalse options.noOptimize
          json_output := jsOrFalse options.jsonOutput
          log_level := jsOrDefault options.logLevel "info" }) ∧
    ((compileWithStreaming jp cbs source ⟨none, none, none, none, none⟩ outcome).sent
      = { source := source
          power_poles := none
          blueprint_name := none
          no_optimize := false
          json_output := false
          log_level := "info" }) :=
  ⟨compileWithStreaming_sent jp cbs source options outcome,
   compileSync_sent source options soutcome,
   compileWithStreaming_sent jp cbs source ⟨none, none, none, none, none⟩ outcome⟩

/-- Witness for C2: a 500 response carrying a structured message. -/
theorem c2_non_ok_response_witness :
    (compileWithStreaming jpFix cbsAll "s" optsNone
        (.resp ⟨500, some "syntax error line 3", [], none⟩)).trace
      = [Call.error "syntax error line 3", Call.complete] := by
  have h := c2_non_ok_response jpFix cbsAll "s" optsNone
    ⟨500, some "syntax error line 3", [], none⟩ (by decide) (fun _ => none) rfl
    (fun _ => rfl) (fun _ => none) rfl
  simp at h
  exact h.1

end Facto
